import Mathlib

/-!
# Pilosa command execution core and benchmark harness

A shallow embedding of `commands.go` (the `Cmd*.Execute` methods) and of
`bench/bench.go` (`DiagonalSetBits`, `RandomSetBits`, `agentizeNum`,
`serialBenchmark`).

Conventions:
* Go `uint64`/`int` values are natural numbers or integers; where the code can wrap, the
  wrap is written out (`% 2 ^ 64`, `wrapInt64`).
* `Bitmap`, `Fragment` and the handle table are declared outside the three files at hand;
  they are modelled from sections 3 and 4 of the written description and marked as such.
* `compress/gzip`, `encoding/base64`, `math/rand`, the clock and the bitmap byte layout are
  library behaviour: they are parameters (`Codec`, `draw`, `clock`).
* A Go run-time panic is the explicit outcome `Outcome.panic`.
-/

namespace Pilosa

/-! ## Bitmaps -/

/-- Modelled from the spec: the `Bitmap` type (declared outside `commands.go`), which
section 3 describes as a set of unsigned positions whose members are unique. -/
abbrev Bitmap := Finset Nat

/-- Modelled from the spec: `NewBitmap()`, "created empty". -/
def NewBitmap : Bitmap := ∅

/-- Modelled from the spec: `Bitmap.SetBit(pos)`, idempotent insertion of one position. -/
def Bitmap.SetBit (b : Bitmap) (pos : Nat) : Bitmap := insert pos b

/-- Modelled from the spec: `Bitmap.BitCount()`, the exact number of set positions. -/
def Bitmap.BitCount (b : Bitmap) : Nat := b.card

/-- Modelled from the spec: `Bitmap.Count()`, the exact number of set positions. -/
def Bitmap.Count (b : Bitmap) : Nat := b.card

/-- Modelled from the spec: bitwise AND of two bitmaps, the operation behind
`Fragment.intersect`. -/
def Intersection (a b : Bitmap) : Bitmap := a ∩ b

/-! ## Fragment and handle table -/

/-- The Go type `BitmapHandle`, an unsigned integer key; `0` is reserved as "no handle". -/
abbrev BitmapHandle := Nat

/-- Modelled from the spec: the `Fragment` type (declared outside `commands.go`).
`rows` is the persisted storage reached through `f.impl`, most recent `Store` first;
`table` is the transient handle table. -/
structure Fragment where
  rows : List (Nat × Bitmap)
  table : List (BitmapHandle × Bitmap)
  deriving DecidableEq

/-- A handle is allocated when it is not the reserved value `0` and the table has an
entry for it. -/
def Fragment.allocated (f : Fragment) (h : BitmapHandle) : Prop :=
  h ≠ 0 ∧ (f.table.lookup h).isSome = true

instance (f : Fragment) (h : BitmapHandle) : Decidable (f.allocated h) := by
  unfold Fragment.allocated; infer_instance

/-- Modelled from the spec: `Fragment.getBitmap(handle) -> (bitmap, found)`, with
`found = false` for every handle that is not allocated, handle `0` included. The bitmap
returned next to `found = false` is the empty one. -/
def Fragment.getBitmap (f : Fragment) (h : BitmapHandle) : Bitmap × Bool :=
  if h = 0 then (NewBitmap, false)
  else
    match f.table.lookup h with
    | some bm => (bm, true)
    | none => (NewBitmap, false)

/-- The handle the next allocation hands out: one above every key of the table, hence
never `0` and never a handle already in the table. -/
def Fragment.nextHandle (f : Fragment) : BitmapHandle :=
  (f.table.map Prod.fst).foldr max 0 + 1

/-- Modelled from the spec: `Fragment.AllocHandle(bitmap) -> handle`, "stores the bitmap,
returns a fresh handle unique within the table". -/
def Fragment.AllocHandle (f : Fragment) (bm : Bitmap) : BitmapHandle × Fragment :=
  (f.nextHandle, { f with table := (f.nextHandle, bm) :: f.table })

/-- Modelled from the spec: `Fragment.exists(rowID)`, presence of a persisted row. -/
def Fragment.exists (f : Fragment) (rowID : Nat) : Bool :=
  (f.rows.lookup rowID).isSome

/-- Modelled from the spec: the storage capability `Get(rowID)`: the persisted bitmap of
the row, or an empty bitmap when the row is absent. -/
def Fragment.Get (f : Fragment) (rowID : Nat) : Bitmap :=
  (f.rows.lookup rowID).getD NewBitmap

/-- Modelled from the spec: the storage capability `Store(rowID, bitmap, filter)`; every
call is recorded in `rows`, in front of the older entries. -/
def Fragment.Store (f : Fragment) (rowID : Nat) (bm : Bitmap) (_filter : Nat) : Fragment :=
  { f with rows := (rowID, bm) :: f.rows }

/-- Modelled from the spec: `Fragment.NewHandle(rowID)`, which "materializes the persisted
bitmap for rowID (or an empty Bitmap if absent) into a fresh handle". -/
def Fragment.NewHandle (f : Fragment) (rowID : Nat) : BitmapHandle × Fragment :=
  f.AllocHandle (f.Get rowID)

/-- Modelled from the spec: `Fragment.intersect(handles) -> handle`, bitwise AND of the
referenced bitmaps, an empty list giving a handle to an empty bitmap. -/
def Fragment.intersect (f : Fragment) (hs : List BitmapHandle) : BitmapHandle × Fragment :=
  match hs with
  | [] => f.AllocHandle NewBitmap
  | h :: t =>
    f.AllocHandle (t.foldl (fun acc x => Intersection acc (f.getBitmap x).1) (f.getBitmap h).1)

/-! ## Results -/

/-- The Go type `Pair`, an (identifier, count) element of a ranking result. -/
structure Pair where
  Key : Nat
  Count : Nat
  deriving DecidableEq

/-- The Go type `FillArgs`: a base handle (`0` for none) and the candidate rows. -/
structure FillArgs where
  Handle : BitmapHandle
  Bitmaps : List Nat
  deriving DecidableEq

/-- A byte slice. -/
abbrev Bytes := List (Fin 256)

/-- The Go type `Calculation` (`interface{}`), restricted to the concrete shapes the
commands below return, plus the shape of a Go `error` value. -/
inductive Calculation where
  | handle (h : BitmapHandle)
  | count (n : Nat)
  | bytes (b : Bytes)
  | pairs (ps : List Pair)
  | status (s : String)
  | error (msg : String)
  deriving DecidableEq

/-- True exactly on results that carry an error. -/
def Calculation.isError : Calculation → Bool
  | .error _ => true
  | _ => false

/-- How a call ends: with a Go run-time panic, or by returning a value. -/
inductive Outcome (α : Type) where
  | panic
  | done (a : α)
  deriving DecidableEq

/-- The library behaviour `commands.go` relies on.
* `ToBytes`, `FromBytes`: the byte layout of `Bitmap`; `FromBytes data` is the state of a
  `NewBitmap()` receiver after `FromBytes(data)`, whatever error it reported.
* `gzipWrite data`: the bytes a `gzip.Writer` has produced after `Write(data)`, `Flush()`
  and `Close()`.
* `gzipNewReader blob`: whether `gzip.NewReader` returns a nil error; otherwise it returns
  a nil `*gzip.Reader`.
* `gzipReadAll blob`: the bytes `ioutil.ReadAll` returns for a non-nil reader over `blob`,
  together with whether its error is nil.
* `base64Decode s`: `base64.StdEncoding.DecodeString`, `none` for a non-nil error. -/
structure Codec where
  ToBytes : Bitmap → Bytes
  FromBytes : Bytes → Bitmap
  gzipWrite : Bytes → Bytes
  gzipNewReader : Bytes → Bool
  gzipReadAll : Bytes → Bytes × Bool
  base64Decode : String → Option Bytes

/-! ## Commands -/

/-- The method `CmdCount.Execute`. -/
def CmdCount.Execute (bitmap : BitmapHandle) (f : Fragment) : Calculation :=
  let (bm, ok) := f.getBitmap bitmap
  if ok = false then .count 0
  else .count (Bitmap.BitCount bm)

/-- The method `CmdGetBytes.Execute`. -/
def CmdGetBytes.Execute (c : Codec) (bitmap : BitmapHandle) (f : Fragment) : Calculation :=
  let (bm, ok) := f.getBitmap bitmap
  let bm := if !ok then NewBitmap else bm
  .bytes (c.gzipWrite (c.ToBytes bm))

/-- The method `CmdFromBytes.Execute`. Both errors are discarded; reading from the nil
reader that a failed `gzip.NewReader` returns dereferences a nil pointer. -/
def CmdFromBytes.Execute (c : Codec) (compressed_bytes : Bytes) (f : Fragment) :
    Outcome (Calculation × Fragment) :=
  if c.gzipNewReader compressed_bytes then
    let b := (c.gzipReadAll compressed_bytes).1
    let result := c.FromBytes b
    let (h, f1) := f.AllocHandle result
    .done (.handle h, f1)
  else .panic

/-- The method `CmdLoader.Execute`. -/
def CmdLoader.Execute (c : Codec) (bitmap_id : Nat) (compressed_bitmap : String)
    (filter : Nat) (f : Fragment) : Outcome (Calculation × Fragment) :=
  match c.base64Decode compressed_bitmap with
  | none => .done (.status "ok", f)
  | some buf =>
    if c.gzipNewReader buf then
      let data := (c.gzipReadAll buf).1
      let bm := c.FromBytes data
      .done (.status "ok", f.Store bitmap_id bm filter)
    else .panic

/-- The loop of `CmdMask.Execute`: `for i := start; i < end; i++ { result.SetBit(i) }` on
`uint64` counters. `none` when the fuel runs out before the loop exits. -/
def maskLoop : Nat → Nat → Nat → Bitmap → Option Bitmap
  | 0, _, _, _ => none
  | fuel + 1, i, stop, result =>
    if i < stop then maskLoop fuel ((i + 1) % 2 ^ 64) stop (Bitmap.SetBit result i)
    else some result

/-- The method `CmdMask.Execute`, the loop running on the given fuel. -/
def CmdMask.Execute (fuel : Nat) (start stop : Nat) (f : Fragment) :
    Option (Calculation × Fragment) :=
  match maskLoop fuel start stop NewBitmap with
  | none => none
  | some result =>
    let (h, f1) := f.AllocHandle result
    some (.handle h, f1)

/-- One iteration of the loop of `CmdTopFill.Execute`, for the candidate `v`. -/
def topFillStep (args : FillArgs) (acc : List Pair × Fragment) (v : Nat) :
    List Pair × Fragment :=
  let (result, f) := acc
  if f.exists v then
    let (a, f1) := f.NewHandle v
    if args.Handle = 0 then
      let (bm, ok) := f1.getBitmap a
      if ok && decide (Bitmap.Count bm > 0) then (result ++ [⟨v, Bitmap.Count bm⟩], f1)
      else (result, f1)
    else
      let (res, f2) := f1.intersect [args.Handle, a]
      let (bm, ok) := f2.getBitmap res
      if ok then
        let bc := Bitmap.BitCount bm
        if bc > 0 then (result ++ [⟨v, bc⟩], f2) else (result, f2)
      else (result, f2)
  else (result, f)

/-- The method `CmdTopFill.Execute`: the pairs returned and the fragment afterwards. -/
def CmdTopFill.Execute (args : FillArgs) (f : Fragment) : Calculation × Fragment :=
  let r := args.Bitmaps.foldl (topFillStep args) ([], f)
  (.pairs r.1, r.2)

/-- What the loop of `CmdTopFill.Execute` keeps true of the fragment `g` it has reached
from `f`: the persisted rows are those of `f`, and the base handle resolves as it did in
`f`. -/
def TopFillInv (f : Fragment) (args : FillArgs) (g : Fragment) : Prop :=
  g.rows = f.rows ∧ g.getBitmap args.Handle = f.getBitmap args.Handle

/-- The count the written description assigns to candidate `v`: the raw set-bit count of
row `v` when `args.Handle == 0`, otherwise the set-bit count of the intersection of the
bitmap behind `args.Handle` with row `v`. -/
def topFillCount (f : Fragment) (args : FillArgs) (v : Nat) : Nat :=
  if args.Handle = 0 then (f.Get v).card
  else ((f.getBitmap args.Handle).1 ∩ f.Get v).card

end Pilosa

/-! ## The benchmark harness (`bench/bench.go`) -/

namespace Bench

/-- Two's-complement wrap of an integer into the range of a 64-bit Go `int`. -/
def wrapInt64 (x : Int) : Int := (x + 2 ^ 63) % 2 ^ 64 - 2 ^ 63

/-- The function `agentizeNum`: `n + (agentNum * iterations)` on Go `int`s. -/
def agentizeNum (n iterations agentNum : Int) : Int :=
  wrapInt64 (n + wrapInt64 (agentNum * iterations))

/-- The character of one decimal digit. -/
def digitChar : Nat → Char
  | 0 => '0'
  | 1 => '1'
  | 2 => '2'
  | 3 => '3'
  | 4 => '4'
  | 5 => '5'
  | 6 => '6'
  | 7 => '7'
  | 8 => '8'
  | 9 => '9'
  | _ => '?'

/-- The digit a decimal character stands for. -/
def charDigit (ch : Char) : Nat := ch.toNat - 48

/-- Decimal rendering of a natural number, most significant digit first. -/
def natToDecimal (n : Nat) : String :=
  if n = 0 then "0" else String.mk ((Nat.digits 10 n).reverse.map digitChar)

/-- The library function `strconv.Itoa`, which is also what `%d` and `%v` print for an
`int`. -/
def Itoa (i : Int) : String :=
  if i < 0 then "-" ++ natToDecimal i.natAbs else natToDecimal i.natAbs

/-- A Go map with string keys, as a list of entries with pairwise distinct keys. -/
abbrev GoMap (α : Type) := List (String × α)

/-- The assignment `m[k] = v`. -/
def GoMap.set {α : Type} (m : GoMap α) (k : String) (v : α) : GoMap α :=
  (k, v) :: m.filter (fun e => e.1 != k)

/-- The lookup `m[k]`, `none` when the key is absent. -/
def GoMap.get {α : Type} (m : GoMap α) (k : String) : Option α :=
  m.lookup k

/-- The values a benchmark stores in its `map[string]interface{}` result: an `error`, a
nested result map, or the `map[string]time.Duration` of run times (in nanoseconds). -/
inductive Value where
  | error (msg : String)
  | results (m : List (String × Value))
  | runtimes (m : List (String × Int))

/-- The result type `map[string]interface{}` of `Benchmark.Run`. -/
abbrev ResultMap := GoMap Value

/-- One call `cli.ExecuteQuery(db, query, true)`. -/
structure Query where
  db : String
  query : String
  deriving DecidableEq

/-- The type `*pilosa.Client` (declared outside `bench.go`): `none` is the nil pointer,
`some host` a client connected to `host`. -/
abbrev Client := Option String

/-- The Go type `DiagonalSetBits`. -/
structure DiagonalSetBits where
  cli : Client
  BaseBitmapID : Int
  BaseProfileID : Int
  Iterations : Int
  DB : String

/-- The method `DiagonalSetBits.Run`: the outcome, and the queries it has sent. -/
def DiagonalSetBits.Run (b : DiagonalSetBits) (agentNum : Int) :
    Pilosa.Outcome ResultMap × List Query :=
  let results : ResultMap := []
  match b.cli with
  | none =>
    (.done (results.set "error"
      (.error ("No client set for DiagonalSetBits agent: " ++ Itoa agentNum))), [])
  | some _ =>
    (.done results, (List.range b.Iterations.toNat).map fun n =>
      let iterID := agentizeNum n b.Iterations agentNum
      ⟨b.DB, "SetBit(" ++ Itoa (wrapInt64 (b.BaseBitmapID + iterID)) ++ ", 'frame.n', "
        ++ Itoa (wrapInt64 (b.BaseProfileID + iterID)) ++ ")"⟩)

/-- The Go type `RandomSetBits`. -/
structure RandomSetBits where
  cli : Client
  BaseBitmapID : Int
  BaseProfileID : Int
  BitmapIDRange : Int
  ProfileIDRange : Int
  Iterations : Int
  Seed : Int
  DB : String

/-- The loop of `RandomSetBits.Run`: `todo` iterations are left, `n` is the loop counter and
`sent` the queries sent so far. `draw seed k r` is the value of the `k`-th call
`rng.Int63n(r)` of a generator seeded with `seed`; `Int63n` panics when `r <= 0`. -/
def RandomSetBits.loop (draw : Int → Nat → Int → Int) (b : RandomSetBits) (seed : Int) :
    Nat → Nat → List Query → Pilosa.Outcome Unit × List Query
  | 0, _, sent => (.done (), sent)
  | todo + 1, n, sent =>
    if b.BitmapIDRange ≤ 0 then (.panic, sent)
    else
      let bitmapID := draw seed (2 * n) b.BitmapIDRange
      if b.ProfileIDRange ≤ 0 then (.panic, sent)
      else
        let profID := draw seed (2 * n + 1) b.ProfileIDRange
        let query := "SetBit(" ++ Itoa (wrapInt64 (b.BaseBitmapID + bitmapID))
          ++ ", 'frame.n', " ++ Itoa (wrapInt64 (b.BaseProfileID + profID)) ++ ")"
        RandomSetBits.loop draw b seed todo (n + 1) (sent ++ [⟨b.DB, query⟩])

/-- The method `RandomSetBits.Run`: the outcome, and the queries it has sent. -/
def RandomSetBits.Run (draw : Int → Nat → Int → Int) (b : RandomSetBits) (agentNum : Int) :
    Pilosa.Outcome ResultMap × List Query :=
  let seed := wrapInt64 (b.Seed + agentNum)
  let results : ResultMap := []
  match b.cli with
  | none =>
    (.done (results.set "error"
      (.error ("No client set for RandomSetBits agent: " ++ Itoa agentNum))), [])
  | some _ =>
    match RandomSetBits.loop draw b seed b.Iterations.toNat 0 [] with
    | (.panic, sent) => (.panic, sent)
    | (.done _, sent) => (.done results, sent)

/-- The Go interface `Benchmark`, reduced to its `Run` method; a run may panic. -/
structure Benchmark where
  Run : Int → Pilosa.Outcome ResultMap

/-- The library method `end.Sub(start)` on clock readings in nanoseconds: the difference as
a `time.Duration`, which saturates at the bounds of a 64-bit integer. -/
def timeSub (stop start : Int) : Int :=
  if stop - start > 2 ^ 63 - 1 then 2 ^ 63 - 1
  else if stop - start < -2 ^ 63 then -2 ^ 63
  else stop - start

/-- The loop of `serialBenchmark.Run` from index `i` on. `clock k` is the value of the
`k`-th call of `time.Now()`, in nanoseconds. A panic of a benchmark ends the loop. -/
def serialBenchmark.loop (clock : Nat → Int) (agentNum : Int) :
    List Benchmark → Nat → ResultMap → GoMap Int → Pilosa.Outcome (ResultMap × GoMap Int)
  | [], _, results, runtimes => .done (results, runtimes)
  | b :: rest, i, results, runtimes =>
    let start := clock (2 * i)
    match b.Run agentNum with
    | .panic => .panic
    | .done ret =>
      let stop := clock (2 * i + 1)
      serialBenchmark.loop clock agentNum rest (i + 1)
        (results.set (Itoa i) (.results ret)) (runtimes.set (Itoa i) (timeSub stop start))

/-- The method `serialBenchmark.Run`. -/
def serialBenchmark.Run (clock : Nat → Int) (benchmarkers : List Benchmark)
    (agentNum : Int) : Pilosa.Outcome ResultMap :=
  match serialBenchmark.loop clock agentNum benchmarkers 0 [] [] with
  | .panic => .panic
  | .done (results, runtimes) => .done (results.set "runtimes" (.runtimes runtimes))

end Bench

/-! ## A stand-in for the libraries -/

namespace Pilosa

/-- A small stand-in for the byte layout and the libraries, used to run the commands on
concrete inputs: a bitmap is laid out one byte per position below 256, ascending; the gzip
framing is the two magic bytes `0x1f 0x8b` followed by the payload; a string decodes as
base64 when it has no blank, each character giving one byte. -/
def sampleCodec : Codec where
  ToBytes b := (List.range 256).filterMap fun i =>
    if h : i < 256 ∧ i ∈ b then some ⟨i, h.1⟩ else none
  FromBytes data := (data.map Fin.val).toFinset
  gzipWrite data := 31 :: 139 :: data
  gzipNewReader blob := blob.take 2 == [31, 139]
  gzipReadAll blob := (blob.drop 2, true)
  base64Decode s :=
    if ' ' ∈ s.data then none else some (s.data.map fun ch => Fin.ofNat ch.toNat)

end Pilosa

/-! ## Handle table lemmas -/

namespace Pilosa

theorem lookup_lt_nextHandle (t : List (BitmapHandle × Bitmap)) (h : BitmapHandle)
    (hh : (t.lookup h).isSome = true) : h < (t.map Prod.fst).foldr max 0 + 1 := by
  induction t with
  | nil => simp at hh
  | cons e t ih =>
    obtain ⟨k, bm⟩ := e
    simp only [List.map_cons, List.foldr_cons]
    by_cases hk : h = k
    · subst hk
      exact Nat.lt_succ_of_le (le_max_left _ _)
    · have hne : (h == k) = false := by simpa using hk
      rw [List.lookup_cons, hne] at hh
      exact Nat.lt_succ_of_le (le_trans (Nat.le_of_lt_succ (ih hh)) (le_max_right _ _))

theorem allocated_ne_nextHandle (f : Fragment) (h : BitmapHandle) (hh : f.allocated h) :
    h ≠ f.nextHandle := by
  have := lookup_lt_nextHandle f.table h hh.2
  unfold Fragment.nextHandle
  exact Nat.ne_of_lt this

theorem nextHandle_ne_zero (f : Fragment) : f.nextHandle ≠ 0 := by
  unfold Fragment.nextHandle
  exact Nat.succ_ne_zero _

theorem getBitmap_AllocHandle_self (f : Fragment) (bm : Bitmap) :
    (f.AllocHandle bm).2.getBitmap (f.AllocHandle bm).1 = (bm, true) := by
  simp [Fragment.AllocHandle, Fragment.getBitmap, nextHandle_ne_zero, List.lookup_cons]

theorem getBitmap_AllocHandle_of_allocated (f : Fragment) (bm : Bitmap) (h : BitmapHandle)
    (hh : f.allocated h) : (f.AllocHandle bm).2.getBitmap h = f.getBitmap h := by
  have hne : (h == f.nextHandle) = false := by simpa using allocated_ne_nextHandle f h hh
  simp [Fragment.AllocHandle, Fragment.getBitmap, List.lookup_cons, hne]

theorem allocated_AllocHandle (f : Fragment) (bm : Bitmap) (h : BitmapHandle)
    (hh : f.allocated h) : (f.AllocHandle bm).2.allocated h := by
  have hne : (h == f.nextHandle) = false := by simpa using allocated_ne_nextHandle f h hh
  refine ⟨hh.1, ?_⟩
  simp only [Fragment.AllocHandle, List.lookup_cons, hne]
  exact hh.2

theorem getBitmap_of_allocated (f : Fragment) (h : BitmapHandle) (hh : f.allocated h) :
    ∃ bm, f.table.lookup h = some bm ∧ f.getBitmap h = (bm, true) := by
  obtain ⟨h0, hs⟩ := hh
  obtain ⟨bm, hbm⟩ := Option.isSome_iff_exists.mp hs
  exact ⟨bm, hbm, by simp [Fragment.getBitmap, h0, hbm]⟩

theorem getBitmap_of_not_allocated (f : Fragment) (h : BitmapHandle) (hh : ¬ f.allocated h) :
    f.getBitmap h = (NewBitmap, false) := by
  unfold Fragment.getBitmap
  by_cases h0 : h = 0
  · simp [h0]
  · have : f.table.lookup h = none := by
      by_contra hc
      exact hh ⟨h0, by simpa [Option.isSome_iff_ne_none] using hc⟩
    simp [h0, this]

end Pilosa

/-! ## Missing handles (`CmdCount`, `CmdGetBytes`) -/

namespace Pilosa

/-- Claim C5. A handle that is not allocated (handle `0` included) makes `CmdCount.Execute`
return the count `0` and makes `CmdGetBytes.Execute` return the gzip bytes of
`NewBitmap().ToBytes()`, which are also the bytes it returns for any handle that resolves
to an empty bitmap; an allocated handle makes `CmdCount.Execute` return the exact
`BitCount` of the bitmap stored under it. -/
theorem CmdCount_CmdGetBytes_missing_handle (c : Codec) (f : Fragment) (h : BitmapHandle) :
    (¬ f.allocated h →
      CmdCount.Execute h f = .count 0 ∧
      CmdGetBytes.Execute c h f = .bytes (c.gzipWrite (c.ToBytes NewBitmap)) ∧
      ∀ h0, f.getBitmap h0 = (NewBitmap, true) →
        CmdGetBytes.Execute c h f = CmdGetBytes.Execute c h0 f) ∧
    (f.allocated h →
      ∃ bm, f.table.lookup h = some bm ∧
        CmdCount.Execute h f = .count (Bitmap.BitCount bm) ∧
        Bitmap.BitCount bm = bm.card) := by
  constructor
  · intro hh
    have hg := getBitmap_of_not_allocated f h hh
    refine ⟨by simp [CmdCount.Execute, hg], by simp [CmdGetBytes.Execute, hg], ?_⟩
    intro h0 hh0
    simp [CmdGetBytes.Execute, hg, hh0]
  · intro hh
    obtain ⟨bm, hl, hg⟩ := getBitmap_of_allocated f h hh
    exact ⟨bm, hl, by simp [CmdCount.Execute, hg], rfl⟩

/-- Claim C5 at concrete handles: in a table holding `{4, 9}` under handle `2` and an empty
bitmap under handle `5`, the handles `0` and `7` are not allocated and handle `2` is. -/
theorem CmdCount_CmdGetBytes_missing_handle_witness :
    (CmdCount.Execute 0 ⟨[], [(2, {4, 9}), (5, ∅)]⟩ = .count 0 ∧
      CmdCount.Execute 7 ⟨[], [(2, {4, 9}), (5, ∅)]⟩ = .count 0) ∧
    ∃ bm, List.lookup 2 [(2, ({4, 9} : Bitmap)), (5, ∅)] = some bm ∧
      CmdCount.Execute 2 ⟨[], [(2, {4, 9}), (5, ∅)]⟩ = .count (Bitmap.BitCount bm) ∧
      Bitmap.BitCount bm = bm.card :=
  ⟨⟨((CmdCount_CmdGetBytes_missing_handle sampleCodec ⟨[], [(2, {4, 9}), (5, ∅)]⟩ 0).1 (by decide)).1,
    ((CmdCount_CmdGetBytes_missing_handle sampleCodec ⟨[], [(2, {4, 9}), (5, ∅)]⟩ 7).1 (by decide)).1⟩,
   (CmdCount_CmdGetBytes_missing_handle sampleCodec ⟨[], [(2, {4, 9}), (5, ∅)]⟩ 2).2 (by decide)⟩

end Pilosa

/-! ## `CmdMask` -/

namespace Pilosa

theorem maskLoop_eq (stop : Nat) (hstop : stop < 2 ^ 64) :
    ∀ (fuel i : Nat) (result : Bitmap), stop - i < fuel →
      maskLoop fuel i stop result = some (result ∪ Finset.Ico i stop) := by
  intro fuel
  induction fuel with
  | zero => intro i result h; omega
  | succ fuel ih =>
    intro i result h
    unfold maskLoop
    by_cases hi : i < stop
    · have hwrap : (i + 1) % 2 ^ 64 = i + 1 := Nat.mod_eq_of_lt (by omega)
      rw [if_pos hi, hwrap, ih (i + 1) (Bitmap.SetBit result i) (by omega)]
      congr 1
      ext x
      simp only [Bitmap.SetBit, Finset.mem_union, Finset.mem_insert, Finset.mem_Ico]
      constructor
      · rintro ((rfl | hx) | ⟨h1, h2⟩)
        · exact Or.inr ⟨le_refl _, hi⟩
        · exact Or.inl hx
        · exact Or.inr ⟨by omega, h2⟩
      · rintro (hx | ⟨h1, h2⟩)
        · exact Or.inl (Or.inr hx)
        · by_cases hxi : x = i
          · exact Or.inl (Or.inl hxi)
          · exact Or.inr ⟨by omega, h2⟩
    · rw [if_neg hi]
      have : Finset.Ico i stop = ∅ := Finset.Ico_eq_empty (by omega)
      simp [this]

/-- Claim C9. For `start` and `stop` in the `uint64` range, `CmdMask.Execute` terminates
(any fuel above `stop - start` is enough) and allocates a handle whose bitmap has exactly
the positions `i` with `start <= i < stop`: it has `stop - start` set bits, it is empty
when `start >= stop`, and the counter never wraps (`i + 1` stays below `2 ^ 64` for every
`i` the loop visits). -/
theorem CmdMask_Execute_range (start stop : Nat) (f : Fragment)
    (hstart : start < 2 ^ 64) (hstop : stop < 2 ^ 64) :
    ∃ (h : BitmapHandle) (f1 : Fragment) (bm : Bitmap),
      (∀ fuel, stop - start < fuel →
        CmdMask.Execute fuel start stop f = some (.handle h, f1)) ∧
      f1.getBitmap h = (bm, true) ∧
      ¬ f.allocated h ∧
      (∀ i, i ∈ bm ↔ start ≤ i ∧ i < stop) ∧
      Bitmap.BitCount bm = stop - start ∧
      (stop ≤ start → bm = NewBitmap) ∧
      (∀ i, start ≤ i → i < stop → (i + 1) % 2 ^ 64 = i + 1) := by
  have _ := hstart
  refine ⟨(f.AllocHandle (Finset.Ico start stop)).1, (f.AllocHandle (Finset.Ico start stop)).2,
    Finset.Ico start stop, ?_, getBitmap_AllocHandle_self f _, ?_, ?_, ?_, ?_, ?_⟩
  · intro fuel hfuel
    have := maskLoop_eq stop hstop fuel start NewBitmap hfuel
    rw [NewBitmap, Finset.empty_union] at this
    simp only [CmdMask.Execute, NewBitmap, this]
  · intro hh
    exact allocated_ne_nextHandle f _ hh rfl
  · intro i
    simp [Finset.mem_Ico]
  · simp [Bitmap.BitCount]
  · intro hle
    exact Finset.Ico_eq_empty (by omega)
  · intro i _ hi
    exact Nat.mod_eq_of_lt (by omega)

/-- Claim C9 at `start = 3`, `stop = 6` on an empty fragment. -/
theorem CmdMask_Execute_range_witness :
    (3 < 2 ^ 64 ∧ 6 < 2 ^ 64) ∧
    ∃ (h : BitmapHandle) (f1 : Fragment) (bm : Bitmap),
      (∀ fuel, 6 - 3 < fuel →
        CmdMask.Execute fuel 3 6 ⟨[], []⟩ = some (.handle h, f1)) ∧
      f1.getBitmap h = (bm, true) ∧
      ¬ (Fragment.mk [] []).allocated h ∧
      (∀ i, i ∈ bm ↔ 3 ≤ i ∧ i < 6) ∧
      Bitmap.BitCount bm = 6 - 3 ∧
      (6 ≤ 3 → bm = NewBitmap) ∧
      (∀ i, 3 ≤ i → i < 6 → (i + 1) % 2 ^ 64 = i + 1) :=
  ⟨⟨by norm_num, by norm_num⟩, CmdMask_Execute_range 3 6 ⟨[], []⟩ (by norm_num) (by norm_num)⟩

end Pilosa

/-! ## `CmdTopFill` -/

namespace Pilosa

theorem getBitmap_AllocHandle_of_ne (f : Fragment) (bm : Bitmap) (h : BitmapHandle)
    (hne : h ≠ f.nextHandle) : (f.AllocHandle bm).2.getBitmap h = f.getBitmap h := by
  have hb : (h == f.nextHandle) = false := by simpa using hne
  simp [Fragment.AllocHandle, Fragment.getBitmap, List.lookup_cons, hb]

theorem allocated_AllocHandle_self (f : Fragment) (bm : Bitmap) :
    (f.AllocHandle bm).2.allocated f.nextHandle := by
  refine ⟨nextHandle_ne_zero f, ?_⟩
  simp [Fragment.AllocHandle, List.lookup_cons]

theorem topFillStep_state (args : FillArgs) (result : List Pair) (g : Fragment) (v : Nat) :
    (topFillStep args (result, g) v).2 =
      if g.exists v = true then
        if args.Handle = 0 then (g.AllocHandle (g.Get v)).2
        else ((g.AllocHandle (g.Get v)).2.AllocHandle
          (Intersection ((g.AllocHandle (g.Get v)).2.getBitmap args.Handle).1
            ((g.AllocHandle (g.Get v)).2.getBitmap (g.AllocHandle (g.Get v)).1).1)).2
      else g := by
  unfold topFillStep
  simp only [Fragment.NewHandle, Fragment.intersect, List.foldl_cons, List.foldl_nil]
  split_ifs <;> rfl

theorem topFillStep_allocated (args : FillArgs) (result : List Pair) (g : Fragment) (v : Nat)
    (h : BitmapHandle) (hh : g.allocated h) :
    (topFillStep args (result, g) v).2.allocated h := by
  rw [topFillStep_state]
  split_ifs
  · exact allocated_AllocHandle g _ h hh
  · exact allocated_AllocHandle _ _ h (allocated_AllocHandle g _ h hh)
  · exact hh

theorem topFill_foldl_allocated (args : FillArgs) (h : BitmapHandle) :
    ∀ (l : List Nat) (acc : List Pair × Fragment), acc.2.allocated h →
      (l.foldl (topFillStep args) acc).2.allocated h := by
  intro l
  induction l with
  | nil => intro acc hh; exact hh
  | cons v l ih =>
    intro acc hh
    rw [List.foldl_cons]
    exact ih _ (topFillStep_allocated args acc.1 acc.2 v h hh)

theorem topFillStep_spec (f g : Fragment) (args : FillArgs) (result : List Pair) (v : Nat)
    (hinv : TopFillInv f args g)
    (hfresh : f.exists v = true → args.Handle ≠ g.nextHandle ∧
      args.Handle ≠ (g.AllocHandle (f.Get v)).2.nextHandle) :
    (topFillStep args (result, g) v).1 =
        result ++ (if f.exists v = true ∧ 0 < topFillCount f args v
          then [⟨v, topFillCount f args v⟩] else []) ∧
      TopFillInv f args (topFillStep args (result, g) v).2 := by
  obtain ⟨hrows, hgb⟩ := hinv
  have hex : g.exists v = f.exists v := by simp [Fragment.exists, hrows]
  have hget : g.Get v = f.Get v := by simp [Fragment.Get, hrows]
  by_cases he : f.exists v = true
  · obtain ⟨hne1, hne2⟩ := hfresh he
    have hself := getBitmap_AllocHandle_self g (f.Get v)
    have hH1 := (getBitmap_AllocHandle_of_ne g (f.Get v) args.Handle hne1).trans hgb
    by_cases h0 : args.Handle = 0
    · have hstep : topFillStep args (result, g) v =
          (if 0 < (f.Get v).card then (result ++ [⟨v, (f.Get v).card⟩], (g.AllocHandle (f.Get v)).2)
            else (result, (g.AllocHandle (f.Get v)).2)) := by
        simp only [topFillStep, hex, he, if_true, h0, Fragment.NewHandle, hget, hself,
          Bitmap.Count, Bool.true_and, gt_iff_lt, decide_eq_true_eq]
      rw [hstep]
      have hinv1 : TopFillInv f args (g.AllocHandle (f.Get v)).2 := ⟨hrows, hH1⟩
      by_cases hc : 0 < (f.Get v).card
      · simp [hc, he, topFillCount, h0, hinv1]
      · simp [hc, topFillCount, h0, hinv1]
    · let g1 := (g.AllocHandle (f.Get v)).2
      let bm := (f.getBitmap args.Handle).1 ∩ f.Get v
      have hself2 := getBitmap_AllocHandle_self g1 bm
      have hstep : topFillStep args (result, g) v =
          (if 0 < bm.card then (result ++ [⟨v, bm.card⟩], (g1.AllocHandle bm).2)
            else (result, (g1.AllocHandle bm).2)) := by
        simp only [topFillStep, hex, he, if_true, h0, if_false, Fragment.NewHandle, hget,
          Fragment.intersect, List.foldl_cons, List.foldl_nil, hself, hH1, Intersection,
          Bitmap.BitCount, gt_iff_lt]
        simp only [g1, bm] at hself2
        rw [hself2]
        simp
      rw [hstep]
      have hinv2 : TopFillInv f args (g1.AllocHandle bm).2 := by
        refine ⟨hrows, ?_⟩
        rw [getBitmap_AllocHandle_of_ne g1 bm _ hne2]
        exact hH1
      by_cases hc : 0 < bm.card
      · have : 0 < topFillCount f args v := by simpa [topFillCount, h0] using hc
        simp [hc, he, this, hinv2]
        simp [topFillCount, h0, bm]
      · have : ¬ 0 < topFillCount f args v := by simpa [topFillCount, h0] using hc
        simp [hc, this, hinv2]
  · have hstep : topFillStep args (result, g) v = (result, g) := by
      simp [topFillStep, hex, he]
    rw [hstep]
    simp [he, TopFillInv, hrows, hgb]

theorem topFillStep_fresh (f g : Fragment) (args : FillArgs) (result : List Pair) (v : Nat)
    (hrows : g.rows = f.rows)
    (hkeep : (topFillStep args (result, g) v).2.allocated args.Handle →
      g.allocated args.Handle)
    (he : f.exists v = true) :
    args.Handle ≠ g.nextHandle ∧ args.Handle ≠ (g.AllocHandle (f.Get v)).2.nextHandle := by
  have hex : g.exists v = true := by simpa [Fragment.exists, hrows] using he
  have hget : g.Get v = f.Get v := by simp [Fragment.Get, hrows]
  rw [topFillStep_state, if_pos hex, hget] at hkeep
  by_cases h0 : args.Handle = 0
  · rw [h0]
    exact ⟨fun h => nextHandle_ne_zero g h.symm, fun h => nextHandle_ne_zero _ h.symm⟩
  · rw [if_neg h0] at hkeep
    constructor
    · intro heq
      have hal : g.allocated args.Handle := by
        apply hkeep
        rw [heq]
        exact allocated_AllocHandle _ _ _ (allocated_AllocHandle_self g _)
      exact allocated_ne_nextHandle g _ hal heq
    · intro heq
      have hal : g.allocated args.Handle := by
        apply hkeep
        rw [heq]
        exact allocated_AllocHandle_self _ _
      exact allocated_ne_nextHandle _ _ (allocated_AllocHandle g (f.Get v) _ hal) heq

theorem topFill_foldl_spec (f : Fragment) (args : FillArgs) :
    ∀ (l : List Nat) (result : List Pair) (g : Fragment), TopFillInv f args g →
      ((l.foldl (topFillStep args) (result, g)).2.allocated args.Handle →
        g.allocated args.Handle) →
      (l.foldl (topFillStep args) (result, g)).1 =
        result ++ l.filterMap (fun v =>
          if f.exists v = true ∧ 0 < topFillCount f args v
          then some ⟨v, topFillCount f args v⟩ else none) := by
  intro l
  induction l with
  | nil => intro result g _ _; simp
  | cons v l ih =>
    intro result g hinv hfin
    rw [List.foldl_cons] at hfin
    have hkeep : (topFillStep args (result, g) v).2.allocated args.Handle →
        g.allocated args.Handle := fun hal =>
      hfin (topFill_foldl_allocated args args.Handle l _ hal)
    obtain ⟨h1, h2⟩ := topFillStep_spec f g args result v hinv
      (topFillStep_fresh f g args result v hinv.1 hkeep)
    rw [List.foldl_cons]
    have hpair : topFillStep args (result, g) v =
        ((topFillStep args (result, g) v).1, (topFillStep args (result, g) v).2) := rfl
    rw [hpair] at hfin ⊢
    rw [ih _ _ h2 (fun hal => topFillStep_allocated args result g v _ (hfin hal)), h1,
      List.filterMap_cons]
    by_cases hc : f.exists v = true ∧ 0 < topFillCount f args v
    · simp [hc]
    · simp [hc]

/-- Claim C1, as stated for every `FillArgs`, fails when `args.Handle` is a handle the
command itself allocates. With rows `7 = {3, 4}` and `9 = {1}`, a table holding only handle
`5`, base handle `6` and candidates `7, 9`: the first `NewHandle` hands out handle `6`, row
`7` is intersected with itself and the pair `(7, 2)` is returned, while no bitmap is behind
handle `6` in the given fragment, which makes the stated count `0`. -/
theorem CmdTopFill_Execute_own_handle :
    ¬ (∃ ps, (CmdTopFill.Execute ⟨6, [7, 9]⟩ ⟨[(7, {3, 4}), (9, {1})], [(5, {4, 1})]⟩).1
          = .pairs ps ∧
        ∀ v c, (⟨v, c⟩ : Pair) ∈ ps ↔
          v ∈ [7, 9] ∧ (Fragment.mk [(7, {3, 4}), (9, {1})] [(5, {4, 1})]).exists v = true ∧
            0 < c ∧
            c = (if (6 : BitmapHandle) = 0
              then Bitmap.Count ((Fragment.mk [(7, {3, 4}), (9, {1})] [(5, {4, 1})]).Get v)
              else Bitmap.BitCount (Intersection
                ((Fragment.mk [(7, {3, 4}), (9, {1})] [(5, {4, 1})]).getBitmap 6).1
                ((Fragment.mk [(7, {3, 4}), (9, {1})] [(5, {4, 1})]).Get v)))) := by
  rintro ⟨ps, hps, hiff⟩
  have hrun : (CmdTopFill.Execute ⟨6, [7, 9]⟩ ⟨[(7, {3, 4}), (9, {1})], [(5, {4, 1})]⟩).1
      = .pairs [⟨7, 2⟩] := by decide
  rw [hrun] at hps
  have hpairs : ps = [⟨7, 2⟩] := (Calculation.pairs.inj hps).symm
  subst hpairs
  have h72 := (hiff 7 2).mp (by decide)
  have hzero : (if (6 : BitmapHandle) = 0
      then Bitmap.Count ((Fragment.mk [(7, {3, 4}), (9, {1})] [(5, {4, 1})]).Get 7)
      else Bitmap.BitCount (Intersection
        ((Fragment.mk [(7, {3, 4}), (9, {1})] [(5, {4, 1})]).getBitmap 6).1
        ((Fragment.mk [(7, {3, 4}), (9, {1})] [(5, {4, 1})]).Get 7))) = 0 := by decide
  have hcount : (2 : Nat) = 0 := h72.2.2.2.trans hzero
  exact absurd hcount (by decide)

/-- Claim C1, amended. When `args.Handle` is not a handle the command itself allocates
while it runs (it is `0`, or allocated before the call, or still unallocated after it),
`CmdTopFill.Execute` returns a list of pairs in which `(v, c)` occurs exactly when `v` is a
candidate of `args.Bitmaps` that exists in the shard, `c > 0`, and `c` is the raw set-bit
count of row `v` for `args.Handle == 0` and otherwise the set-bit count of the
intersection of the bitmap behind `args.Handle` (empty when the handle is missing) with row
`v`. A candidate that does not exist, or whose count is `0`, contributes no pair. -/
theorem CmdTopFill_Execute_pairs (f : Fragment) (args : FillArgs)
    (hH : (CmdTopFill.Execute args f).2.allocated args.Handle → f.allocated args.Handle) :
    ∃ ps, (CmdTopFill.Execute args f).1 = .pairs ps ∧
      ∀ v c, (⟨v, c⟩ : Pair) ∈ ps ↔
        v ∈ args.Bitmaps ∧ f.exists v = true ∧ 0 < c ∧
          c = (if args.Handle = 0 then Bitmap.Count (f.Get v)
            else Bitmap.BitCount (Intersection (f.getBitmap args.Handle).1 (f.Get v))) := by
  have hinv : TopFillInv f args f := ⟨rfl, rfl⟩
  refine ⟨_, rfl, ?_⟩
  intro v c
  have hcount : topFillCount f args v =
      (if args.Handle = 0 then Bitmap.Count (f.Get v)
        else Bitmap.BitCount (Intersection (f.getBitmap args.Handle).1 (f.Get v))) := rfl
  rw [topFill_foldl_spec f args args.Bitmaps [] f hinv hH, ← hcount]
  simp only [List.nil_append, List.mem_filterMap]
  constructor
  · rintro ⟨w, hw, hsome⟩
    by_cases hc : f.exists w = true ∧ 0 < topFillCount f args w
    · rw [if_pos hc] at hsome
      have hp : (⟨w, topFillCount f args w⟩ : Pair) = ⟨v, c⟩ := Option.some.inj hsome
      have hv : w = v := congrArg Pair.Key hp
      have hcc : topFillCount f args w = c := congrArg Pair.Count hp
      subst hv
      subst hcc
      exact ⟨hw, hc.1, hc.2, rfl⟩
    · rw [if_neg hc] at hsome
      cases hsome
  · rintro ⟨hv, he, hc, rfl⟩
    exact ⟨v, hv, by rw [if_pos ⟨he, hc⟩]⟩

/-- Claim C1, amended, on a shard with rows `7 = {3, 4}` and `9 = {1}`, base handle
`5 = {4, 1}` and candidates `7, 8, 9`. -/
theorem CmdTopFill_Execute_pairs_witness :
    ((CmdTopFill.Execute ⟨5, [7, 8, 9]⟩
        ⟨[(7, {3, 4}), (9, {1})], [(5, {4, 1})]⟩).2.allocated 5 →
      (Fragment.mk [(7, {3, 4}), (9, {1})] [(5, {4, 1})]).allocated 5) ∧
    ∃ ps, (CmdTopFill.Execute ⟨5, [7, 8, 9]⟩ ⟨[(7, {3, 4}), (9, {1})], [(5, {4, 1})]⟩).1
        = .pairs ps ∧
      ∀ v c, (⟨v, c⟩ : Pair) ∈ ps ↔
        v ∈ [7, 8, 9] ∧ (Fragment.mk [(7, {3, 4}), (9, {1})] [(5, {4, 1})]).exists v = true ∧
          0 < c ∧
          c = (if (5 : BitmapHandle) = 0
            then Bitmap.Count ((Fragment.mk [(7, {3, 4}), (9, {1})] [(5, {4, 1})]).Get v)
            else Bitmap.BitCount (Intersection
              ((Fragment.mk [(7, {3, 4}), (9, {1})] [(5, {4, 1})]).getBitmap 5).1
              ((Fragment.mk [(7, {3, 4}), (9, {1})] [(5, {4, 1})]).Get v))) :=
  ⟨fun _ => by decide,
    CmdTopFill_Execute_pairs ⟨[(7, {3, 4}), (9, {1})], [(5, {4, 1})]⟩ ⟨5, [7, 8, 9]⟩
      (fun _ => by decide)⟩

end Pilosa

/-! ## Import and export (`CmdGetBytes`, `CmdFromBytes`, `CmdLoader`) -/

namespace Pilosa

/-- Claim C2, as the code behaves. Whatever the libraries do and whatever the blob is,
`CmdFromBytes.Execute` ends in one of two ways: it panics (when `gzip.NewReader` failed and
left a nil reader), or it returns a handle, never an error, after adding one entry to the
handle table; the new entry holds whatever `FromBytes` made of the bytes read. It never
returns with the handle table unchanged. -/
theorem CmdFromBytes_Execute_panics_or_allocates (c : Codec) (blob : Bytes) (f : Fragment) :
    (c.gzipNewReader blob = false ∧ CmdFromBytes.Execute c blob f = .panic) ∨
    (c.gzipNewReader blob = true ∧
      ∃ (h : BitmapHandle) (f1 : Fragment),
        CmdFromBytes.Execute c blob f = .done (.handle h, f1) ∧
        (Calculation.handle h).isError = false ∧
        f1.table.length = f.table.length + 1 ∧
        ¬ f.allocated h ∧
        f1.getBitmap h = (c.FromBytes (c.gzipReadAll blob).1, true)) := by
  cases hr : c.gzipNewReader blob with
  | false =>
    left
    exact ⟨rfl, by simp [CmdFromBytes.Execute, hr]⟩
  | true =>
    right
    refine ⟨rfl, (f.AllocHandle (c.FromBytes (c.gzipReadAll blob).1)).1,
      (f.AllocHandle (c.FromBytes (c.gzipReadAll blob).1)).2, ?_, rfl, ?_, ?_, ?_⟩
    · simp [CmdFromBytes.Execute, hr]
    · simp [Fragment.AllocHandle]
    · intro hh
      exact allocated_ne_nextHandle f _ hh rfl
    · exact getBitmap_AllocHandle_self f _

/-- Claim C3, as the code behaves. `CmdLoader.Execute` skips the record only when the
base64 decoding fails. When the string is valid base64, the gzip errors are discarded: the
command panics if `gzip.NewReader` failed, and otherwise calls `Store` for the row with
whatever `FromBytes` made of the bytes read, even if reading reported an error. -/
theorem CmdLoader_Execute_discards_gzip_errors (c : Codec) (bitmap_id : Nat)
    (compressed_bitmap : String) (filter : Nat) (f : Fragment) :
    (c.base64Decode compressed_bitmap = none →
      CmdLoader.Execute c bitmap_id compressed_bitmap filter f = .done (.status "ok", f)) ∧
    (∀ buf, c.base64Decode compressed_bitmap = some buf →
      (c.gzipNewReader buf = false →
        CmdLoader.Execute c bitmap_id compressed_bitmap filter f = .panic) ∧
      (c.gzipNewReader buf = true →
        ∃ f1, CmdLoader.Execute c bitmap_id compressed_bitmap filter f
            = .done (.status "ok", f1) ∧
          f1.rows = (bitmap_id, c.FromBytes (c.gzipReadAll buf).1) :: f.rows ∧
          f1.rows ≠ f.rows)) := by
  refine ⟨fun hnone => by simp [CmdLoader.Execute, hnone], fun buf hbuf => ⟨?_, ?_⟩⟩
  · intro hr
    simp [CmdLoader.Execute, hbuf, hr]
  · intro hr
    refine ⟨f.Store bitmap_id (c.FromBytes (c.gzipReadAll buf).1) filter, ?_, rfl, ?_⟩
    · simp [CmdLoader.Execute, hbuf, hr]
    · intro heq
      have := congrArg List.length heq
      simp [Fragment.Store] at this

/-- Claim C4. Export followed by import is a round trip: when handle `h` resolves to the
bitmap `B`, the gzip reader accepts and returns what the gzip writer produced for
`B.ToBytes()`, and `FromBytes` undoes `ToBytes` on `B`, then `CmdFromBytes.Execute` on the
bytes returned by `CmdGetBytes.Execute` for `h` allocates a new handle whose bitmap is
`B`. -/
theorem export_import_round_trip (c : Codec) (f : Fragment) (h : BitmapHandle) (B : Bitmap)
    (hB : f.getBitmap h = (B, true))
    (hopen : c.gzipNewReader (c.gzipWrite (c.ToBytes B)) = true)
    (hread : (c.gzipReadAll (c.gzipWrite (c.ToBytes B))).1 = c.ToBytes B)
    (hbytes : c.FromBytes (c.ToBytes B) = B) :
    ∃ (blob : Bytes) (h1 : BitmapHandle) (f1 : Fragment),
      CmdGetBytes.Execute c h f = .bytes blob ∧
      CmdFromBytes.Execute c blob f = .done (.handle h1, f1) ∧
      f1.getBitmap h1 = (B, true) ∧
      ¬ f.allocated h1 ∧
      f1.getBitmap h = (B, true) := by
  have hal : f.allocated h := by
    by_contra hn
    rw [getBitmap_of_not_allocated f h hn] at hB
    cases hB
  refine ⟨c.gzipWrite (c.ToBytes B), (f.AllocHandle B).1, (f.AllocHandle B).2, ?_, ?_,
    getBitmap_AllocHandle_self f B, ?_, ?_⟩
  · simp [CmdGetBytes.Execute, hB]
  · simp [CmdFromBytes.Execute, hopen, hread, hbytes]
  · intro hh
    exact allocated_ne_nextHandle f _ hh rfl
  · rw [getBitmap_AllocHandle_of_allocated f B h hal, hB]

/-- Claim C4 with the stand-in libraries, for the bitmap `{1, 2, 3}` under handle `4`. -/
theorem export_import_round_trip_witness :
    ∃ (blob : Bytes) (h1 : BitmapHandle) (f1 : Fragment),
      CmdGetBytes.Execute sampleCodec 4 ⟨[], [(4, {1, 2, 3})]⟩ = .bytes blob ∧
      CmdFromBytes.Execute sampleCodec blob ⟨[], [(4, {1, 2, 3})]⟩ = .done (.handle h1, f1) ∧
      f1.getBitmap h1 = (({1, 2, 3} : Bitmap), true) ∧
      ¬ (Fragment.mk [] [(4, {1, 2, 3})]).allocated h1 ∧
      f1.getBitmap 4 = (({1, 2, 3} : Bitmap), true) :=
  export_import_round_trip sampleCodec ⟨[], [(4, {1, 2, 3})]⟩ 4 {1, 2, 3}
    (by decide) (by decide) (by decide) (by decide)

end Pilosa

/-! ## The benchmark harness: helper lemmas -/

namespace Bench

theorem wrapInt64_of_range (x : Int) (hlo : -2 ^ 63 ≤ x) (hhi : x < 2 ^ 63) :
    wrapInt64 x = x := by
  unfold wrapInt64
  rw [Int.emod_eq_of_lt (by omega) (by omega)]
  omega

theorem GoMap.lookup_filter_ne {α : Type} (m : GoMap α) (k k1 : String) (hne : k1 ≠ k) :
    List.lookup k1 (m.filter (fun e => e.1 != k)) = List.lookup k1 m := by
  induction m with
  | nil => rfl
  | cons e m ih =>
    obtain ⟨a, v⟩ := e
    by_cases ha : a = k
    · subst ha
      have h1 : (k1 == a) = false := by simpa using hne
      simp [List.filter_cons, List.lookup_cons, h1, ih]
    · have h2 : (a != k) = true := by simpa using ha
      rw [List.filter_cons]
      simp only [h2, if_true, List.lookup_cons, ih]

theorem GoMap.get_set_self {α : Type} (m : GoMap α) (k : String) (v : α) :
    (m.set k v).get k = some v := by
  simp [GoMap.set, GoMap.get, List.lookup_cons]

theorem GoMap.get_set_ne {α : Type} (m : GoMap α) (k k1 : String) (v : α) (hne : k1 ≠ k) :
    (m.set k v).get k1 = m.get k1 := by
  have h1 : (k1 == k) = false := by simpa using hne
  simp only [GoMap.set, GoMap.get, List.lookup_cons, h1]
  exact GoMap.lookup_filter_ne m k k1 hne

theorem charDigit_digitChar (d : Nat) (hd : d < 10) : charDigit (digitChar d) = d := by
  interval_cases d <;> rfl

theorem map_charDigit_digitChar (l : List Nat) (hl : ∀ d ∈ l, d < 10) :
    (l.map digitChar).map charDigit = l := by
  induction l with
  | nil => rfl
  | cons d l ih =>
    simp only [List.map_cons]
    rw [charDigit_digitChar d (hl d (List.mem_cons_self _ _)),
      ih (fun x hx => hl x (List.mem_cons_of_mem _ hx))]

theorem decode_natToDecimal (n : Nat) :
    Nat.ofDigits 10 ((natToDecimal n).data.map charDigit).reverse = n := by
  unfold natToDecimal
  by_cases hn : n = 0
  · subst hn
    rfl
  · rw [if_neg hn]
    have hlt : ∀ d ∈ (Nat.digits 10 n).reverse, d < 10 := by
      intro d hd
      exact Nat.digits_lt_base (by norm_num) (List.mem_reverse.mp hd)
    rw [map_charDigit_digitChar _ hlt, List.reverse_reverse, Nat.ofDigits_digits]

theorem natToDecimal_injective (n m : Nat) (h : natToDecimal n = natToDecimal m) : n = m := by
  have := congrArg (fun s : String => Nat.ofDigits 10 (s.data.map charDigit).reverse) h
  simpa [decode_natToDecimal] using this

theorem Itoa_natCast (n : Nat) : Itoa (n : Int) = natToDecimal n := by
  simp [Itoa]

theorem Itoa_natCast_injective (n m : Nat) (h : Itoa (n : Int) = Itoa (m : Int)) : n = m := by
  rw [Itoa_natCast, Itoa_natCast] at h
  exact natToDecimal_injective n m h

theorem digitChar_ne_r (d : Nat) : digitChar d ≠ 'r' := by
  unfold digitChar
  split <;> decide

theorem Itoa_natCast_ne_runtimes (n : Nat) : Itoa (n : Int) ≠ "runtimes" := by
  rw [Itoa_natCast]
  unfold natToDecimal
  by_cases hn : n = 0
  · rw [if_pos hn]
    decide
  · rw [if_neg hn]
    intro h
    have hdata := congrArg String.data h
    have hmem : 'r' ∈ (Nat.digits 10 n).reverse.map digitChar := by
      rw [show (String.mk ((Nat.digits 10 n).reverse.map digitChar)).data
        = (Nat.digits 10 n).reverse.map digitChar from rfl] at hdata
      rw [hdata]
      decide
    obtain ⟨d, _, hd⟩ := List.mem_map.mp hmem
    exact digitChar_ne_r d hd

end Bench

/-! ## The benchmark harness: `agentizeNum` -/

namespace Bench

/-- Claim C8. Integer overflow aside (the products `(agentNum + 1) * iterations` stay within
a 64-bit `int`), `agentizeNum` is injective on the pairs (loop index, agent number): for
`iterations > 0`, agent numbers `a, a1 >= 0` and loop indices `0 <= n, n1 < iterations`,
equal results force `n = n1` and `a = a1`. -/
theorem agentizeNum_injective (n n1 iterations a a1 : Int)
    (hit : 0 < iterations) (ha : 0 ≤ a) (ha1 : 0 ≤ a1)
    (hn : 0 ≤ n) (hnlt : n < iterations) (hn1 : 0 ≤ n1) (hn1lt : n1 < iterations)
    (hov : (a + 1) * iterations ≤ 2 ^ 63) (hov1 : (a1 + 1) * iterations ≤ 2 ^ 63)
    (h : agentizeNum n iterations a = agentizeNum n1 iterations a1) :
    n = n1 ∧ a = a1 := by
  have hp : 0 ≤ a * iterations := mul_nonneg ha hit.le
  have hp1 : 0 ≤ a1 * iterations := mul_nonneg ha1 hit.le
  have he : (a + 1) * iterations = a * iterations + iterations := by ring
  have he1 : (a1 + 1) * iterations = a1 * iterations + iterations := by ring
  have hw : agentizeNum n iterations a = n + a * iterations := by
    unfold agentizeNum
    rw [wrapInt64_of_range (a * iterations) (by omega) (by omega)]
    exact wrapInt64_of_range _ (by omega) (by omega)
  have hw1 : agentizeNum n1 iterations a1 = n1 + a1 * iterations := by
    unfold agentizeNum
    rw [wrapInt64_of_range (a1 * iterations) (by omega) (by omega)]
    exact wrapInt64_of_range _ (by omega) (by omega)
  rw [hw, hw1] at h
  have haa : a = a1 := by
    rcases lt_trichotomy a a1 with hlt | heq | hgt
    · exfalso
      have : (a + 1) * iterations ≤ a1 * iterations :=
        mul_le_mul_of_nonneg_right (by omega) hit.le
      omega
    · exact heq
    · exfalso
      have : (a1 + 1) * iterations ≤ a * iterations :=
        mul_le_mul_of_nonneg_right (by omega) hit.le
      omega
  subst haa
  exact ⟨by omega, rfl⟩

/-- Claim C8 at `iterations = 100`: index `7` on agent `2` against index `7` on agent `2`,
the only way to reach `207`. -/
theorem agentizeNum_injective_witness :
    agentizeNum 7 100 2 = 207 ∧ ((7 : Int) = 7 ∧ (2 : Int) = 2) :=
  ⟨by decide, agentizeNum_injective 7 7 100 2 2 (by decide) (by decide) (by decide)
    (by decide) (by decide) (by decide) (by decide) (by decide) (by decide) rfl⟩

/-! ## The benchmark harness: a missing client -/

/-- Claim C6. When the client is nil, `DiagonalSetBits.Run` and `RandomSetBits.Run` return
normally, whatever `agentNum` and `Iterations` are: the result map holds an error under the
key `"error"`, and no query has been sent. -/
theorem Run_without_client (draw : Int → Nat → Int → Int) (d : DiagonalSetBits)
    (r : RandomSetBits) (agentNum : Int) (hd : d.cli = none) (hr : r.cli = none) :
    (∃ m msg, d.Run agentNum = (.done m, []) ∧ m.get "error" = some (.error msg)) ∧
    (∃ m msg, r.Run draw agentNum = (.done m, []) ∧ m.get "error" = some (.error msg)) := by
  constructor
  · refine ⟨GoMap.set [] "error"
        (.error ("No client set for DiagonalSetBits agent: " ++ Itoa agentNum)),
      "No client set for DiagonalSetBits agent: " ++ Itoa agentNum, ?_,
      GoMap.get_set_self [] "error" _⟩
    simp only [DiagonalSetBits.Run, hd]
  · refine ⟨GoMap.set [] "error"
        (.error ("No client set for RandomSetBits agent: " ++ Itoa agentNum)),
      "No client set for RandomSetBits agent: " ++ Itoa agentNum, ?_,
      GoMap.get_set_self [] "error" _⟩
    simp only [RandomSetBits.Run, hr]

/-- Claim C6 for agent `3` with `Iterations = 100` and no client. -/
theorem Run_without_client_witness :
    (∃ m msg, (DiagonalSetBits.mk none 0 0 100 "benchdb").Run 3 = (.done m, []) ∧
      m.get "error" = some (.error msg)) ∧
    (∃ m msg, (RandomSetBits.mk none 0 0 100000 100000 100 1 "benchdb").Run
        (fun _ _ _ => 0) 3 = (.done m, []) ∧
      m.get "error" = some (.error msg)) :=
  Run_without_client (fun _ _ _ => 0) ⟨none, 0, 0, 100, "benchdb"⟩
    ⟨none, 0, 0, 100000, 100000, 100, 1, "benchdb"⟩ 3 rfl rfl

end Bench

/-! ## The benchmark harness: `serialBenchmark.Run` -/

namespace Bench

theorem serialLoop_get_other (clock : Nat → Int) (agentNum : Int) (k : String) :
    ∀ (bs : List Benchmark) (i : Nat) (results rs : ResultMap) (runtimes rt : GoMap Int),
      serialBenchmark.loop clock agentNum bs i results runtimes = .done (rs, rt) →
      (∀ j, j < bs.length → k ≠ Itoa ((i + j : Nat) : Int)) →
      rs.get k = results.get k ∧ rt.get k = runtimes.get k := by
  intro bs
  induction bs with
  | nil =>
    intro i results rs runtimes rt hloop _
    simp only [serialBenchmark.loop, Pilosa.Outcome.done.injEq, Prod.mk.injEq] at hloop
    obtain ⟨h1, h2⟩ := hloop
    subst h1
    subst h2
    exact ⟨rfl, rfl⟩
  | cons b rest ih =>
    intro i results rs runtimes rt hloop hk
    have hk0 : k ≠ Itoa (i : Int) := by simpa using hk 0 (by simp)
    have hrest : ∀ j, j < rest.length → k ≠ Itoa ((i + 1 + j : Nat) : Int) := by
      intro j hj
      have := hk (j + 1) (by simp [hj])
      rwa [show i + (j + 1) = i + 1 + j by omega] at this
    simp only [serialBenchmark.loop] at hloop
    cases hrun : b.Run agentNum with
    | panic => simp [hrun] at hloop
    | done ret =>
      simp only [hrun] at hloop
      obtain ⟨h1, h2⟩ := ih (i + 1) _ rs _ rt hloop hrest
      exact ⟨h1.trans (GoMap.get_set_ne _ _ _ _ hk0), h2.trans (GoMap.get_set_ne _ _ _ _ hk0)⟩

theorem serialLoop_get_index (clock : Nat → Int) (agentNum : Int) :
    ∀ (bs : List Benchmark) (i : Nat) (results rs : ResultMap) (runtimes rt : GoMap Int),
      serialBenchmark.loop clock agentNum bs i results runtimes = .done (rs, rt) →
      ∀ (j : Nat) (hj : j < bs.length),
        ∃ ret, (bs.get ⟨j, hj⟩).Run agentNum = .done ret ∧
          rs.get (Itoa ((i + j : Nat) : Int)) = some (.results ret) ∧
          rt.get (Itoa ((i + j : Nat) : Int)) =
            some (timeSub (clock (2 * (i + j) + 1)) (clock (2 * (i + j)))) := by
  intro bs
  induction bs with
  | nil => intro i results rs runtimes rt _ j hj; simp at hj
  | cons b rest ih =>
    intro i results rs runtimes rt hloop j hj
    simp only [serialBenchmark.loop] at hloop
    cases hrun : b.Run agentNum with
    | panic => simp [hrun] at hloop
    | done ret =>
      simp only [hrun] at hloop
      cases j with
      | zero =>
        have hother : ∀ j, j < rest.length →
            Itoa ((i + 0 : Nat) : Int) ≠ Itoa ((i + 1 + j : Nat) : Int) := by
          intro j _ heq
          have := Itoa_natCast_injective _ _ heq
          omega
        obtain ⟨h1, h2⟩ := serialLoop_get_other clock agentNum (Itoa ((i + 0 : Nat) : Int))
          rest (i + 1) _ rs _ rt hloop hother
        refine ⟨ret, hrun, ?_, ?_⟩
        · rw [h1]
          exact GoMap.get_set_self _ _ _
        · rw [h2]
          exact GoMap.get_set_self _ _ _
      | succ j =>
        have hj1 : j < rest.length := by simpa using hj
        have := ih (i + 1) _ rs _ rt hloop j hj1
        rw [show i + (j + 1) = i + 1 + j by omega]
        exact this

theorem serialLoop_returns (clock : Nat → Int) (agentNum : Int) :
    ∀ (bs : List Benchmark) (i : Nat) (results : ResultMap) (runtimes : GoMap Int),
      (∀ b ∈ bs, ∃ ret, b.Run agentNum = .done ret) →
      ∃ rs rt, serialBenchmark.loop clock agentNum bs i results runtimes = .done (rs, rt) := by
  intro bs
  induction bs with
  | nil => intro i results runtimes _; exact ⟨results, runtimes, rfl⟩
  | cons b rest ih =>
    intro i results runtimes hall
    obtain ⟨ret, hret⟩ := hall b (List.mem_cons_self _ _)
    obtain ⟨rs, rt, h⟩ := ih (i + 1) (results.set (Itoa i) (.results ret))
      (runtimes.set (Itoa i) (timeSub (clock (2 * i + 1)) (clock (2 * i))))
      (fun x hx => hall x (List.mem_cons_of_mem _ hx))
    exact ⟨rs, rt, by simp only [serialBenchmark.loop, hret, h]⟩

/-- Claim C7 at the failing input, the empty list of benchmarks: the returned map has the
key `"runtimes"`, which is the decimal index of no benchmark, so its keys are not exactly
the indices. -/
theorem serialBenchmark_Run_runtimes_key :
    serialBenchmark.Run (fun _ => 0) [] 0 = .done [("runtimes", .runtimes [])] ∧
    ¬ (∀ k : String, (GoMap.get [("runtimes", Value.runtimes [])] k).isSome = true ↔
        ∃ i : Nat, i < ([] : List Benchmark).length ∧ k = Itoa (i : Int)) := by
  refine ⟨rfl, ?_⟩
  intro h
  obtain ⟨i, hi, _⟩ := (h "runtimes").mp (by decide)
  simp at hi

/-- Claim C7, as the code behaves. `serialBenchmark.Run` on no benchmarks returns the map
with the single key `"runtimes"`. When every benchmark of the list returns, so does
`serialBenchmark.Run`, and the top-level keys of its map are the decimal indices `"0"` ..
`"len-1"` together with the extra key `"runtimes"`: the value at index `i` is the result of
the `i`-th benchmark's `Run(agentNum)`, and the value at `"runtimes"`, which is the index of
no benchmark, is a map giving for each index the time between the two clock readings taken
around that run. -/
theorem serialBenchmark_Run_keys (clock : Nat → Int) (bs : List Benchmark) (agentNum : Int) :
    serialBenchmark.Run clock [] agentNum = .done [("runtimes", .runtimes [])] ∧
    (∀ i : Nat, Itoa (i : Int) ≠ "runtimes") ∧
    ((∀ b ∈ bs, ∃ ret, b.Run agentNum = .done ret) →
      ∃ m : ResultMap, serialBenchmark.Run clock bs agentNum = .done m ∧
        (∀ k : String, (m.get k).isSome = true ↔
          k = "runtimes" ∨ ∃ i : Nat, i < bs.length ∧ k = Itoa (i : Int)) ∧
        (∀ (i : Nat) (hi : i < bs.length),
          ∃ ret, (bs.get ⟨i, hi⟩).Run agentNum = .done ret ∧
            m.get (Itoa (i : Int)) = some (.results ret)) ∧
        ∃ rt : GoMap Int, m.get "runtimes" = some (.runtimes rt) ∧
          ∀ i : Nat, i < bs.length →
            rt.get (Itoa (i : Int)) = some (timeSub (clock (2 * i + 1)) (clock (2 * i)))) := by
  refine ⟨rfl, Itoa_natCast_ne_runtimes, ?_⟩
  intro hall
  obtain ⟨rs, rt, hloop⟩ := serialLoop_returns clock agentNum bs 0 [] [] hall
  have hrun : serialBenchmark.Run clock bs agentNum =
      .done (GoMap.set rs "runtimes" (.runtimes rt)) := by
    simp only [serialBenchmark.Run, hloop]
  have hidx : ∀ (i : Nat) (hi : i < bs.length),
      ∃ ret, (bs.get ⟨i, hi⟩).Run agentNum = .done ret ∧
        (GoMap.set rs "runtimes" (.runtimes rt)).get (Itoa (i : Int)) = some (.results ret) := by
    intro i hi
    obtain ⟨ret, hret, hget, _⟩ := serialLoop_get_index clock agentNum bs 0 [] rs [] rt hloop i hi
    refine ⟨ret, hret, ?_⟩
    rw [GoMap.get_set_ne _ _ _ _ (Itoa_natCast_ne_runtimes i)]
    rwa [Nat.zero_add] at hget
  refine ⟨_, hrun, ?_, hidx, rt, GoMap.get_set_self _ _ _, ?_⟩
  · intro k
    constructor
    · intro hsome
      by_cases hk : k = "runtimes"
      · exact Or.inl hk
      · right
        by_contra hno
        have hother : ∀ j, j < bs.length → k ≠ Itoa ((0 + j : Nat) : Int) := by
          intro j hj heq
          exact hno ⟨j, hj, by simpa using heq⟩
        rw [GoMap.get_set_ne _ _ _ _ hk,
          (serialLoop_get_other clock agentNum k bs 0 [] rs [] rt hloop hother).1] at hsome
        simp [GoMap.get] at hsome
    · rintro (rfl | ⟨i, hi, rfl⟩)
      · rw [GoMap.get_set_self]
        rfl
      · obtain ⟨ret, _, hget⟩ := hidx i hi
        rw [hget]
        rfl
  · intro i hi
    obtain ⟨_, _, _, hget⟩ := serialLoop_get_index clock agentNum bs 0 [] rs [] rt hloop i hi
    rwa [Nat.zero_add] at hget

end Bench
